import Mathlib

/-! # riakstore: a session store on top of a Riak client

A shallow embedding of `riakstore.go` (package `riakstore`).

* Go `string` is `String`, `[]byte` is `List Nat`, `int` is `Int`, an `error`
  value is `Option Error` with `none` for `nil`.
* A `*sessions.Options` is an address (`Ptr`) into a heap of `Options` objects, so
  that two pointers to the same object are visible as such.  Only non-nil pointers
  are represented: sessions reach `Save` through `New`, which always sets the field.
* The third-party collaborators are capabilities passed as records of functions:
  the riaken client (`Client`), the securecookie codecs (`Codecs`), `encoding/gob`
  (`Gob`).  The database behind the client is a state `σ` threaded through the calls.
* `securecookie.GenerateRandomKey` reads from `World.entropy`, the bytes the random
  source is going to hand out.
* `http.ResponseWriter` is the list of cookies passed to `http.SetCookie` so far.
-/

namespace Riakstore

/-! ## Data model -/

/-- Go error values met in the package: its own `ErrNoDatabase`, and errors coming
from the collaborators (database, codec, gob), kept apart by a message. -/
inductive Error where
  | ErrNoDatabase
  | other (msg : String)
  deriving DecidableEq, Repr

abbrev Bytes := List Nat

/-- Stand-in for `session.Values`, a `map[interface{}]interface{}`. -/
abbrev Values := List (String × String)

abbrev Ptr := Nat

/-- Record `sessions.Options`. -/
structure Options where
  Path : String
  Domain : String
  MaxAge : Int
  Secure : Bool
  HttpOnly : Bool
  deriving DecidableEq, Repr

/-- Heap of `sessions.Options` objects: `cells p` is the object at address `p`,
`next` the first address not handed out yet. -/
structure Heap where
  cells : Ptr → Options
  next : Ptr

/-- Dereference `*p`. -/
def Heap.get (h : Heap) (p : Ptr) : Options := h.cells p

/-- Assignment `*p = o`. -/
def Heap.set (h : Heap) (p : Ptr) (o : Options) : Heap :=
  { h with cells := Function.update h.cells p o }

/-- Allocation `&sessions.Options{...}`: a fresh address holding `o`. -/
def Heap.alloc (h : Heap) (o : Options) : Ptr × Heap :=
  (h.next, { cells := Function.update h.cells h.next o, next := h.next + 1 })

/-- Record `sessions.Session` (the back pointer to the store is left out). -/
structure Session where
  name : String
  ID : String
  Values : Values
  Options : Ptr
  IsNew : Bool
  deriving DecidableEq, Repr

/-- The cookie `sessions.NewCookie(name, value, options)` builds: name, value and the
option fields copied over (`Expires`, derived from the clock, is left out). -/
structure Cookie where
  Name : String
  Value : String
  Path : String
  Domain : String
  MaxAge : Int
  Secure : Bool
  HttpOnly : Bool
  deriving DecidableEq, Repr

/-- Function `sessions.NewCookie`. -/
def NewCookie (name value : String) (options : Options) : Cookie :=
  { Name := name, Value := value, Path := options.Path, Domain := options.Domain,
    MaxAge := options.MaxAge, Secure := options.Secure, HttpOnly := options.HttpOnly }

/-- The response: the cookies handed to `http.SetCookie`, oldest first (one entry per
Set-Cookie operation). -/
abbrev ResponseWriter := List Cookie

/-- Function `http.SetCookie(w, cookie)`. -/
def SetCookie (w : ResponseWriter) (c : Cookie) : ResponseWriter := w ++ [c]

/-- The request, as far as the store reads it: `r.Cookie(name)` gives the value of the
cookie of that name, or `none` when it reports `http.ErrNoCookie`. -/
structure Request where
  Cookie : String → Option String

/-- The riaken client as the store uses it, over a database state `σ`.
`Session st` tells whether `Riaken.Session()` yields a handle (non-nil);
`Store bucket key value`, `Fetch bucket key` and `Delete bucket key` are
`GetBucket(bucket).Object(key)` followed by the call of that name.  `Fetch` gives the
`Value` of each entry of `GetContent()`. -/
structure Client (σ : Type) where
  Session : σ → Bool
  Store : String → String → Bytes → σ → Option Error × σ
  Fetch : String → String → σ → Except Error (List Bytes) × σ
  Delete : String → String → σ → Option Error × σ

/-- The codecs `[]securecookie.Codec`, through `securecookie.EncodeMulti(name, value,
codecs...)` and `securecookie.DecodeMulti(name, value, &dst, codecs...)`; a successful
decode gives the string written to `dst`, a failed one leaves `dst` as it was. -/
structure Codecs where
  EncodeMulti : String → String → Except Error String
  DecodeMulti : String → String → Except Error String

/-- Package `encoding/gob` on `Values`: `Encode v` is the buffer an encoder fills,
`Decode buf target` decodes `buf` into the map `target` and gives the error and the
map afterwards. -/
structure Gob where
  Encode : Values → Except Error Bytes
  Decode : Bytes → Values → Option Error × Values

/-- Everything outside the store that its methods read or change. -/
structure World (σ : Type) where
  db : σ
  heap : Heap
  entropy : Bytes

/-- Variable `sessionExpire`: amount of time for cookies/keys to expire. -/
def sessionExpire : Int := 86400 * 30

/-- Record `RiakStore`. -/
structure RiakStore (σ : Type) where
  Riaken : Client σ
  Bucket : String
  Codecs : Codecs
  Options : Ptr
  DefaultMaxAge : Int

/-! ## `encoding/base32` and `strings.TrimRight` -/

/-- Alphabet of `base32.StdEncoding` (RFC 4648). -/
def encodeStd : List Char :=
  ['A', 'B', 'C', 'D', 'E', 'F', 'G', 'H', 'I', 'J', 'K', 'L', 'M', 'N', 'O', 'P',
   'Q', 'R', 'S', 'T', 'U', 'V', 'W', 'X', 'Y', 'Z', '2', '3', '4', '5', '6', '7']

/-- Padding character of `base32.StdEncoding`. -/
def StdPadding : Char := '='

/-- Table lookup `enc.encode[i & 0x1F]`. -/
def encChar (i : Nat) : Char := encodeStd.getD (i &&& 31) 'A'

/-- One quantum of `Encoding.Encode`: up to five source bytes (absent ones read as
zero) give eight 5-bit groups of the 40-bit number they spell. -/
def quantum (b0 b1 b2 b3 b4 : Nat) : List Char :=
  let hi := (b0 % 256) <<< 24 ||| (b1 % 256) <<< 16 ||| (b2 % 256) <<< 8 ||| (b3 % 256)
  let lo := (hi <<< 8 ||| (b4 % 256)) % 2 ^ 32
  [encChar (hi >>> 27), encChar (hi >>> 22), encChar (hi >>> 17), encChar (hi >>> 12),
   encChar (hi >>> 7), encChar (hi >>> 2), encChar (lo >>> 5), encChar lo]

/-- Method `Encoding.Encode` of `base32.StdEncoding`: full 5-byte blocks give 8
characters each; a final block of `remain` bytes gives `remain * 8 / 5 + 1` characters
followed by padding up to 8. -/
def Encode : Bytes → List Char
  | b0 :: b1 :: b2 :: b3 :: b4 :: rest => quantum b0 b1 b2 b3 b4 ++ Encode rest
  | [b0, b1, b2, b3] => (quantum b0 b1 b2 b3 0).take 7 ++ List.replicate 1 StdPadding
  | [b0, b1, b2] => (quantum b0 b1 b2 0 0).take 5 ++ List.replicate 3 StdPadding
  | [b0, b1] => (quantum b0 b1 0 0 0).take 4 ++ List.replicate 4 StdPadding
  | [b0] => (quantum b0 0 0 0 0).take 2 ++ List.replicate 6 StdPadding
  | [] => []

/-- Method `base32.StdEncoding.EncodeToString`. -/
def EncodeToString (src : Bytes) : String := String.mk (Encode src)

/-- Function `strings.TrimRight(s, cutset)`: `s` without its trailing characters
that occur in `cutset`. -/
def TrimRight (s cutset : String) : String :=
  String.mk (s.data.rdropWhile (fun c => decide (c ∈ cutset.data)))

/-- Function `securecookie.GenerateRandomKey(length)`: the next `length` bytes of the
random source, or `nil` (no bytes) when the source fails to deliver them. -/
def GenerateRandomKey (length : Nat) (entropy : Bytes) : Bytes × Bytes :=
  if entropy.length < length then ([], entropy)
  else (entropy.take length, entropy.drop length)

/-! ## The store -/

/-- Function `NewRiakStore(addrs, connections, bucket, keyPairs...)`.  `client` is
`riaken.NewClient(addrs, connections)`, `dial` the outcome of `r.Dial()` and `codecs`
is `securecookie.CodecsFromPairs(keyPairs...)`.  A dial error panics (`Except.error`).
`DefaultMaxAge` is not set and keeps the zero value. -/
def NewRiakStore {σ : Type} (client : Client σ) (dial : Option Error) (bucket : String)
    (codecs : Codecs) (heap : Heap) : Except Error (RiakStore σ × Heap) :=
  match dial with
  | some err => .error err
  | none =>
    let (options, heap) := heap.alloc
      { Path := "/", Domain := "", MaxAge := sessionExpire, Secure := false, HttpOnly := false }
    .ok ({ Riaken := client, Bucket := bucket, Codecs := codecs, Options := options,
           DefaultMaxAge := 0 }, heap)

/-- Function `sessions.NewSession(store, name)`: empty values, no ID; `Options` is
given by the caller right after. -/
def NewSession (name : String) (options : Ptr) : Session :=
  { name := name, ID := "", Values := [], Options := options, IsNew := false }

/-- Result of `save` and `delete`. -/
structure WriteResult (σ : Type) where
  err : Option Error
  world : World σ

/-- Result of `load`. -/
structure LoadResult (σ : Type) where
  ok : Bool
  err : Option Error
  session : Session
  world : World σ

/-- Result of `New`. -/
structure NewResult (σ : Type) where
  session : Session
  err : Option Error
  world : World σ

/-- Result of `Save`. -/
structure SaveResult (σ : Type) where
  err : Option Error
  w : ResponseWriter
  session : Session
  world : World σ

/-- Method `save`: stores the session in riak.  The local `age` is computed as in the
source and, as there, passed to nothing. -/
def RiakStore.save {σ : Type} (s : RiakStore σ) (g : Gob) (session : Session)
    (world : World σ) : WriteResult σ :=
  match g.Encode session.Values with
  | .error err => { err := some err, world := world }
  | .ok buf =>
    if s.Riaken.Session world.db = false then
      { err := some Error.ErrNoDatabase, world := world }
    else
      let age := (world.heap.get session.Options).MaxAge
      let _age := if age = 0 then s.DefaultMaxAge else age
      let (err, db) := s.Riaken.Store s.Bucket ("session_" ++ session.ID) buf world.db
      { err := err, world := { world with db := db } }

/-- Method `load`: reads the session from riak; `ok` tells whether there is session
data in the DB. -/
def RiakStore.load {σ : Type} (s : RiakStore σ) (g : Gob) (session : Session)
    (world : World σ) : LoadResult σ :=
  if s.Riaken.Session world.db = false then
    { ok := false, err := some Error.ErrNoDatabase, session := session, world := world }
  else
    match s.Riaken.Fetch s.Bucket ("session_" ++ session.ID) world.db with
    | (.error err, db) =>
      { ok := false, err := some err, session := session, world := { world with db := db } }
    | (.ok [], db) =>
      { ok := false, err := none, session := session, world := { world with db := db } }
    | (.ok (value :: _), db) =>
      let (err, values) := g.Decode value session.Values
      { ok := true, err := err, session := { session with Values := values },
        world := { world with db := db } }

/-- Method `delete`: removes the key from riak. -/
def RiakStore.delete {σ : Type} (s : RiakStore σ) (session : Session)
    (world : World σ) : WriteResult σ :=
  if s.Riaken.Session world.db = false then
    { err := some Error.ErrNoDatabase, world := world }
  else
    let (err, db) := s.Riaken.Delete s.Bucket ("session_" ++ session.ID) world.db
    { err := err, world := { world with db := db } }

/-- Method `New`: a session for the given name.  `session.Options = &(*s.Options)`
takes the address of the object `s.Options` points to, which is `s.Options` itself.
The `err` of `ok, err := s.load(session)` is a new variable of the inner block: it
enters `IsNew` and the function returns the outer `err`, still `nil` there. -/
def RiakStore.New {σ : Type} (s : RiakStore σ) (g : Gob) (r : Request) (name : String)
    (world : World σ) : NewResult σ :=
  let session := NewSession name s.Options
  let session := { session with IsNew := true }
  match r.Cookie name with
  | none => { session := session, err := none, world := world }
  | some value =>
    match s.Codecs.DecodeMulti name value with
    | .error err => { session := session, err := some err, world := world }
    | .ok id =>
      let res := s.load g { session with ID := id } world
      { session := { res.session with IsNew := !(res.err.isNone && res.ok) },
        err := none, world := res.world }

/-- Method `Save`: adds a single session to the response. -/
def RiakStore.Save {σ : Type} (s : RiakStore σ) (g : Gob) (_r : Request)
    (w : ResponseWriter) (session : Session) (world : World σ) : SaveResult σ :=
  if (world.heap.get session.Options).MaxAge < 0 then
    let res := s.delete session world
    match res.err with
    | some err => { err := some err, w := w, session := session, world := res.world }
    | none =>
      { err := none,
        w := SetCookie w (NewCookie session.name "" (res.world.heap.get session.Options)),
        session := session, world := res.world }
  else
    let (session, world) :=
      if session.ID = "" then
        let (key, entropy) := GenerateRandomKey 32 world.entropy
        ({ session with ID := TrimRight (EncodeToString key) "=" },
         { world with entropy := entropy })
      else (session, world)
    let res := s.save g session world
    match res.err with
    | some err => { err := some err, w := w, session := session, world := res.world }
    | none =>
      match s.Codecs.EncodeMulti session.name session.ID with
      | .error err => { err := some err, w := w, session := session, world := res.world }
      | .ok encoded =>
        { err := none,
          w := SetCookie w (NewCookie session.name encoded (res.world.heap.get session.Options)),
          session := session, world := res.world }

/-- The assignment `session.Options.MaxAge = age`, as a caller writes it to mark a
record (for deletion when `age < 0`): a write through the record's options pointer. -/
def Session.setMaxAge {σ : Type} (session : Session) (age : Int) (world : World σ) : World σ :=
  { world with
    heap := world.heap.set session.Options { world.heap.get session.Options with MaxAge := age } }

/-- A caller running `Save` again and again on one record: before each call the
caller may have replaced the values, and the request, the response and the world are
whatever they are at that moment. -/
def SaveAll {σ : Type} (s : RiakStore σ) (g : Gob) :
    List (Request × ResponseWriter × Values × World σ) → Session → Session
  | [], session => session
  | (r, w, values, world) :: rest, session =>
    SaveAll s g rest (s.Save g r w { session with Values := values } world).session

/-! ## Contracts of the collaborators -/

/-- A backend that returns what was last stored under a key: right after a successful
`Store` of `value`, a `Fetch` of the same bucket and key succeeds with `value` as its
first content. -/
def Client.ReadsBackWrites {σ : Type} (c : Client σ) : Prop :=
  ∀ bucket key value st st2, c.Store bucket key value st = (none, st2) →
    ∃ rest st3, c.Fetch bucket key st2 = (.ok (value :: rest), st3)

/-- A backend whose delete removes: right after a successful `Delete`, a `Fetch` of
the same bucket and key succeeds with no content. -/
def Client.DeleteRemoves {σ : Type} (c : Client σ) : Prop :=
  ∀ bucket key st st2, c.Delete bucket key st = (none, st2) →
    ∃ st3, c.Fetch bucket key st2 = (.ok [], st3)

/-- A serializer whose decode inverts its encode, at `values` and into the map
`target`: whatever buffer the encoder gives for `values` decodes, without error, to
`values`. -/
def Gob.RoundTrips (g : Gob) (values target : Values) : Prop :=
  ∀ buf, g.Encode values = .ok buf → g.Decode buf target = (none, values)

/-! ## An in-memory instance of the collaborators -/

/-- An in-memory database: whether a handle can be had, and the stored objects. -/
structure MemDB where
  up : Bool
  objects : List ((String × String) × Bytes)
  deriving DecidableEq, Repr

/-- The in-memory client: store replaces, fetch finds, delete erases. -/
def memClient : Client MemDB where
  Session := fun st => st.up
  Store := fun bucket key value st =>
    (none, { st with objects :=
      ((bucket, key), value) :: st.objects.filter (fun e => decide (e.1 ≠ (bucket, key))) })
  Fetch := fun bucket key st =>
    match st.objects.find? (fun e => decide (e.1 = (bucket, key))) with
    | some e => (.ok [e.2], st)
    | none => (.ok [], st)
  Delete := fun bucket key st =>
    (none, { st with objects := st.objects.filter (fun e => decide (e.1 ≠ (bucket, key))) })

/-- Character codes of a string, as bytes. -/
def strBytes (s : String) : Bytes := s.data.map Char.toNat

/-- A toy serializer: each pair as two length-prefixed strings; decoding adds the
decoded pairs in front of the target map, as gob adds to a non-nil map. -/
def memGobEncode : Values → Bytes
  | [] => []
  | (k, v) :: rest =>
    k.length :: (strBytes k ++ (v.length :: (strBytes v ++ memGobEncode rest)))

/-- Reads `n` pairs off the buffer; `fuel` bounds the recursion. -/
def memGobDecode : Nat → Bytes → Option Values
  | _, [] => some []
  | 0, _ :: _ => none
  | fuel + 1, n :: rest =>
    let k := String.mk ((rest.take n).map Char.ofNat)
    match rest.drop n with
    | [] => none
    | m :: rest2 =>
      let v := String.mk ((rest2.take m).map Char.ofNat)
      match memGobDecode fuel (rest2.drop m) with
      | none => none
      | some vs => some ((k, v) :: vs)

/-- The toy serializer as a `Gob`. -/
def memGob : Gob where
  Encode := fun values => .ok (memGobEncode values)
  Decode := fun buf target =>
    match memGobDecode buf.length buf with
    | some vs => (none, vs ++ target)
    | none => (some (Error.other "gob: bad buffer"), target)

/-- A codec that signs nothing: the token is the name, a colon and the ID, and a
token decodes only under its own name. -/
def memCodecs : Codecs where
  EncodeMulti := fun name value => .ok (name ++ ":" ++ value)
  DecodeMulti := fun name token =>
    if (name ++ ":").data.isPrefixOf token.data then
      .ok (String.mk (token.data.drop (name.length + 1)))
    else .error (Error.other "securecookie: the value is not valid")

/-- An empty heap: every address holds the zero `Options`. -/
def emptyHeap : Heap :=
  { cells := fun _ => { Path := "", Domain := "", MaxAge := 0, Secure := false, HttpOnly := false },
    next := 1 }

/-- The options `NewRiakStore` allocates. -/
def defaultOptions : Options :=
  { Path := "/", Domain := "", MaxAge := sessionExpire, Secure := false, HttpOnly := false }

/-- The store `NewRiakStore` builds on the in-memory collaborators from the empty
heap: its options live at address 1. -/
def exStore : RiakStore MemDB :=
  { Riaken := memClient, Bucket := "sessions", Codecs := memCodecs, Options := 1,
    DefaultMaxAge := 0 }

/-- The heap after `NewRiakStore` ran on the empty heap. -/
def exHeap : Heap := (emptyHeap.alloc defaultOptions).2

/-- A world with a reachable, empty database. -/
def exWorld : World MemDB :=
  { db := { up := true, objects := [] }, heap := exHeap, entropy := List.range 64 }

/-- A world whose database hands out no handle. -/
def exWorldDown : World MemDB :=
  { db := { up := false, objects := [] }, heap := exHeap, entropy := [] }

/-- A request carrying the cookie `sid` with a token for the identifier `ABC`. -/
def exRequest : Request :=
  { Cookie := fun name => if name = "sid" then some "sid:ABC" else none }

/-- The record `New` hands to `load` for that request. -/
def exDecoded : Session :=
  { name := "sid", ID := "ABC", Values := [], Options := exStore.Options, IsNew := true }

/-- The in-memory store with a client whose fetch times out. -/
def exStoreTimeout : RiakStore MemDB :=
  { exStore with
    Riaken := { memClient with Fetch := fun _ _ st => (.error (Error.other "timeout"), st) } }

/-- A world whose database holds, under the key of `ABC`, a payload that is not a
serialized map. -/
def exWorldGarbled : World MemDB :=
  { exWorld with db := { up := true, objects := [(("sessions", "session_ABC"), [5])] } }

/-- A world in which the options at address 1 carry `MaxAge = -1` and the database
holds an entry under the key of `ABC`. -/
def exWorldExpiring : World MemDB :=
  { db := { up := true, objects := [(("sessions", "session_ABC"), [1, 107, 1, 118])] },
    heap := exHeap.set 1 { defaultOptions with MaxAge := -1 }, entropy := [] }

/-- A heap with two option objects that differ only in `MaxAge`: 60 at address 1 and
3600 at address 2. -/
def exHeapTwoAges : Heap :=
  (exHeap.set 1 { defaultOptions with MaxAge := 60 }).set 2 { defaultOptions with MaxAge := 3600 }

/-- A request without cookies. -/
def noCookies : Request := { Cookie := fun _ => none }

/-! ## What the backend methods leave alone -/

theorem save_heap {σ : Type} (s : RiakStore σ) (g : Gob) (session : Session)
    (world : World σ) : (s.save g session world).world.heap = world.heap := by
  unfold RiakStore.save
  split
  · rfl
  · split <;> rfl

theorem save_entropy {σ : Type} (s : RiakStore σ) (g : Gob) (session : Session)
    (world : World σ) : (s.save g session world).world.entropy = world.entropy := by
  unfold RiakStore.save
  split
  · rfl
  · split <;> rfl

theorem delete_heap {σ : Type} (s : RiakStore σ) (session : Session)
    (world : World σ) : (s.delete session world).world.heap = world.heap := by
  unfold RiakStore.delete
  split <;> rfl

theorem delete_entropy {σ : Type} (s : RiakStore σ) (session : Session)
    (world : World σ) : (s.delete session world).world.entropy = world.entropy := by
  unfold RiakStore.delete
  split <;> rfl

theorem load_heap {σ : Type} (s : RiakStore σ) (g : Gob) (session : Session)
    (world : World σ) : (s.load g session world).world.heap = world.heap := by
  unfold RiakStore.load
  split
  · rfl
  · split <;> rfl

theorem load_entropy {σ : Type} (s : RiakStore σ) (g : Gob) (session : Session)
    (world : World σ) : (s.load g session world).world.entropy = world.entropy := by
  unfold RiakStore.load
  split
  · rfl
  · split <;> rfl

theorem load_ID {σ : Type} (s : RiakStore σ) (g : Gob) (session : Session)
    (world : World σ) : (s.load g session world).session.ID = session.ID := by
  unfold RiakStore.load
  split
  · rfl
  · split <;> rfl

/-! ## The in-memory client keeps the contracts -/

theorem memClient_ReadsBackWrites : memClient.ReadsBackWrites := by
  intro bucket key value st st2 h
  simp only [memClient, Prod.mk.injEq, true_and] at h
  subst h
  refine ⟨[], (memClient.Store bucket key value st).2, ?_⟩
  simp only [memClient, List.find?_cons, decide_True]

theorem memClient_DeleteRemoves : memClient.DeleteRemoves := by
  intro bucket key st st2 h
  simp only [memClient, Prod.mk.injEq, true_and] at h
  subst h
  have hnone : (st.objects.filter (fun e => decide (e.1 ≠ (bucket, key)))).find?
      (fun e => decide (e.1 = (bucket, key))) = none := by
    rw [List.find?_eq_none]
    intro e he
    simpa using (List.mem_filter.mp he).2
  refine ⟨(memClient.Delete bucket key st).2, ?_⟩
  simp only [memClient, hnone]

/-! ## Save and the response -/

/-- C1: `Save` performs exactly one Set-Cookie on the response when it returns no
error and none at all when it returns an error; and it returns no error exactly when,
for `MaxAge < 0`, the backend delete succeeds, and for `MaxAge >= 0`, the backend
write and the codec encode both succeed. -/
theorem Save_one_cookie_iff_no_error {σ : Type} (s : RiakStore σ) (g : Gob) (r : Request)
    (w : ResponseWriter) (session : Session) (world : World σ) :
    (((s.Save g r w session world).err = none ∧
        ∃ c, (s.Save g r w session world).w = SetCookie w c) ∨
      ((s.Save g r w session world).err ≠ none ∧ (s.Save g r w session world).w = w)) ∧
    ((s.Save g r w session world).err = none ↔
      if (world.heap.get session.Options).MaxAge < 0 then
        (s.delete session world).err = none
      else
        (s.save g (s.Save g r w session world).session
            { world with entropy := (s.Save g r w session world).world.entropy }).err = none ∧
          ∃ encoded, s.Codecs.EncodeMulti session.name
            (s.Save g r w session world).session.ID = .ok encoded) := by
  unfold RiakStore.Save
  by_cases hage : (world.heap.get session.Options).MaxAge < 0
  · simp only [hage, if_true]
    cases hd : (s.delete session world).err <;> simp
  · simp only [hage, if_false]
    generalize hp : (if session.ID = "" then
        (({ session with ID := TrimRight (EncodeToString (GenerateRandomKey 32 world.entropy).1) "=" } : Session),
         ({ world with entropy := (GenerateRandomKey 32 world.entropy).2 } : World σ))
      else (session, world)) = p
    obtain ⟨sess2, world2⟩ := p
    have hw : world2 = { world with entropy := world2.entropy } := by
      split at hp <;> cases hp <;> rfl
    simp only []
    cases hs : (s.save g sess2 world2).err with
    | some e =>
      simp only [save_entropy, ← hw, hs]
      simp
    | none =>
      cases he : s.Codecs.EncodeMulti session.name sess2.ID with
      | error e =>
        have hn : sess2.name = session.name := by
          split at hp <;> cases hp <;> rfl
        simp only [hn, he, save_entropy, ← hw, hs]
        simp
      | ok encoded =>
        have hn : sess2.name = session.name := by
          split at hp <;> cases hp <;> rfl
        simp only [hn, he, save_entropy, ← hw, hs]
        simp

/-! ## New -/

/-- The error `New` returns is the decode error and nothing else: once the cookie
decodes, `New` returns `nil`, whatever `load` reports. -/
theorem New_err_of_decoded {σ : Type} (s : RiakStore σ) (g : Gob) (r : Request)
    (name value id : String) (world : World σ) (hc : r.Cookie name = some value)
    (hd : s.Codecs.DecodeMulti name value = .ok id) :
    (s.New g r name world).err = none := by
  simp [RiakStore.New, hc, hd]

/-- C2: the record returned by `New` has `IsNew = false` if and only if the request
carries a cookie of that name, the codec decodes it, and `load` returns `(true, nil)`;
in every other case `IsNew = true`. -/
theorem New_IsNew_false_iff {σ : Type} (s : RiakStore σ) (g : Gob) (r : Request)
    (name : String) (world : World σ) :
    ((s.New g r name world).session.IsNew = false ↔
      ∃ value id, r.Cookie name = some value ∧ s.Codecs.DecodeMulti name value = .ok id ∧
        (s.load g { name := name, ID := id, Values := [], Options := s.Options, IsNew := true }
          world).ok = true ∧
        (s.load g { name := name, ID := id, Values := [], Options := s.Options, IsNew := true }
          world).err = none) ∧
    ((s.New g r name world).session.IsNew = true ↔
      ¬ ∃ value id, r.Cookie name = some value ∧ s.Codecs.DecodeMulti name value = .ok id ∧
        (s.load g { name := name, ID := id, Values := [], Options := s.Options, IsNew := true }
          world).ok = true ∧
        (s.load g { name := name, ID := id, Values := [], Options := s.Options, IsNew := true }
          world).err = none) := by
  have key : (s.New g r name world).session.IsNew = false ↔
      ∃ value id, r.Cookie name = some value ∧ s.Codecs.DecodeMulti name value = .ok id ∧
        (s.load g { name := name, ID := id, Values := [], Options := s.Options, IsNew := true }
          world).ok = true ∧
        (s.load g { name := name, ID := id, Values := [], Options := s.Options, IsNew := true }
          world).err = none := by
    unfold RiakStore.New NewSession
    cases hc : r.Cookie name with
    | none => simp
    | some value =>
      cases hd : s.Codecs.DecodeMulti name value with
      | error e => simp [hd]
      | ok id =>
        constructor
        · intro h
          refine ⟨value, id, rfl, hd, ?_⟩
          simp only [hd] at h
          generalize (s.load g ⟨name, id, [], s.Options, true⟩ world) = res at h ⊢
          cases hok : res.ok <;> cases herr : res.err <;> simp_all
        · rintro ⟨value2, id2, hv, hd2, hok, herr⟩
          cases hv
          rw [hd] at hd2
          cases hd2
          simp [hd, hok, herr]
  refine ⟨key, ?_⟩
  rw [← key]
  cases (s.New g r name world).session.IsNew <;> simp

/-- C6: when the request carries a cookie whose token decodes to an identifier that
has no backend entry (a handle is available and the fetch gives no content), `load`
returns `(false, nil)` and `New` returns a record with `IsNew = true`, empty values
and a nil error. -/
theorem New_absent_entry {σ : Type} (s : RiakStore σ) (g : Gob) (r : Request)
    (name value id : String) (world : World σ)
    (hc : r.Cookie name = some value)
    (hd : s.Codecs.DecodeMulti name value = .ok id)
    (hup : s.Riaken.Session world.db = true)
    (habsent : (s.Riaken.Fetch s.Bucket ("session_" ++ id) world.db).1 = .ok []) :
    (s.load g { name := name, ID := id, Values := [], Options := s.Options, IsNew := true }
        world).ok = false ∧
      (s.load g { name := name, ID := id, Values := [], Options := s.Options, IsNew := true }
        world).err = none ∧
      (s.New g r name world).session.IsNew = true ∧
      (s.New g r name world).session.Values = [] ∧
      (s.New g r name world).session.ID = id ∧
      (s.New g r name world).err = none := by
  have hl : s.load g { name := name, ID := id, Values := [], Options := s.Options, IsNew := true }
      world = { ok := false, err := none,
                session := { name := name, ID := id, Values := [], Options := s.Options,
                             IsNew := true },
                world := { world with db := (s.Riaken.Fetch s.Bucket ("session_" ++ id) world.db).2 } } := by
    unfold RiakStore.load
    rw [if_neg (by simp [hup])]
    rcases hf : s.Riaken.Fetch s.Bucket ("session_" ++ id) world.db with ⟨res, db⟩
    rw [hf] at habsent
    simp only at habsent
    subst habsent
    rfl
  refine ⟨by rw [hl], by rw [hl], ?_, ?_, ?_, ?_⟩ <;>
    simp [RiakStore.New, NewSession, hc, hd, hl]

/-- Witness of C6 on the in-memory collaborators: a token for `ABC`, nothing stored. -/
theorem New_absent_entry_witness :
    exRequest.Cookie "sid" = some "sid:ABC" ∧
    exStore.Codecs.DecodeMulti "sid" "sid:ABC" = .ok "ABC" ∧
    exStore.Riaken.Session exWorld.db = true ∧
    (exStore.Riaken.Fetch exStore.Bucket ("session_" ++ "ABC") exWorld.db).1 = .ok [] ∧
    ((exStore.load memGob ⟨"sid", "ABC", [], exStore.Options, true⟩ exWorld).ok = false ∧
      (exStore.load memGob ⟨"sid", "ABC", [], exStore.Options, true⟩ exWorld).err = none ∧
      (exStore.New memGob exRequest "sid" exWorld).session.IsNew = true ∧
      (exStore.New memGob exRequest "sid" exWorld).session.Values = [] ∧
      (exStore.New memGob exRequest "sid" exWorld).session.ID = "ABC" ∧
      (exStore.New memGob exRequest "sid" exWorld).err = none) :=
  ⟨by decide, by rfl, by decide, by rfl,
   New_absent_entry exStore memGob exRequest "sid" "sid:ABC" "ABC" exWorld
     (by decide) (by rfl) (by decide) (by rfl)⟩

/-- C4 does not hold of the code: in three runs the cookie decodes and `load` fails (no
handle; a fetch error; a stored payload that does not deserialize), and `New` returns
a nil error each time, with a record marked new. -/
theorem New_drops_load_error :
    ((exStore.load memGob exDecoded exWorldDown).err = some Error.ErrNoDatabase ∧
      (exStore.New memGob exRequest "sid" exWorldDown).err = none ∧
      (exStore.New memGob exRequest "sid" exWorldDown).session.IsNew = true) ∧
    ((exStoreTimeout.load memGob exDecoded exWorld).err = some (Error.other "timeout") ∧
      (exStoreTimeout.New memGob exRequest "sid" exWorld).err = none ∧
      (exStoreTimeout.New memGob exRequest "sid" exWorld).session.IsNew = true) ∧
    ((exStore.load memGob exDecoded exWorldGarbled).ok = true ∧
      (exStore.load memGob exDecoded exWorldGarbled).err = some (Error.other "gob: bad buffer") ∧
      (exStore.New memGob exRequest "sid" exWorldGarbled).err = none ∧
      (exStore.New memGob exRequest "sid" exWorldGarbled).session.IsNew = true) := by
  refine ⟨⟨?_, ?_, ?_⟩, ⟨?_, ?_, ?_⟩, ⟨?_, ?_, ?_, ?_⟩⟩ <;> decide

/-! ## Persistence -/

/-- A successful `save` has encoded the values and issued one `Store`, in the store's
bucket under `session_<ID>`, with the encoded buffer as the value. -/
theorem save_ok {σ : Type} (s : RiakStore σ) (g : Gob) (session : Session)
    (world : World σ) (hsave : (s.save g session world).err = none) :
    ∃ buf, g.Encode session.Values = .ok buf ∧ s.Riaken.Session world.db = true ∧
      s.Riaken.Store s.Bucket ("session_" ++ session.ID) buf world.db
        = (none, (s.save g session world).world.db) := by
  cases he : g.Encode session.Values with
  | error e => simp [RiakStore.save, he] at hsave
  | ok buf =>
    cases hup : s.Riaken.Session world.db with
    | false => simp [RiakStore.save, he, hup] at hsave
    | true =>
      rcases hst : s.Riaken.Store s.Bucket ("session_" ++ session.ID) buf world.db with ⟨err, db⟩
      simp only [RiakStore.save, he, hup, hst] at hsave ⊢
      simp only [Bool.true_eq_false, if_false] at hsave ⊢
      subst hsave
      exact ⟨buf, rfl, trivial, hst⟩

/-- C3: for every record with `MaxAge >= 0` whose `save` succeeds, `load` on a record
with the same identifier returns `(true, nil)` and leaves that record with exactly the
saved values, given a backend that returns what was last stored under a key (and hands
out a handle for the load) and a serializer whose decode inverts its encode. -/
theorem save_load_round_trip {σ : Type} (s : RiakStore σ) (g : Gob)
    (session target : Session) (world later : World σ)
    (_hage : 0 ≤ (world.heap.get session.Options).MaxAge)
    (hback : s.Riaken.ReadsBackWrites)
    (hgob : g.RoundTrips session.Values target.Values)
    (hid : target.ID = session.ID)
    (hsave : (s.save g session world).err = none)
    (hlater : later.db = (s.save g session world).world.db)
    (hup : s.Riaken.Session later.db = true) :
    (s.load g target later).ok = true ∧ (s.load g target later).err = none ∧
      (s.load g target later).session.Values = session.Values := by
  obtain ⟨buf, he, -, hst⟩ := save_ok s g session world hsave
  obtain ⟨rest, st3, hf⟩ := hback _ _ _ _ _ hst
  have hdec := hgob buf he
  unfold RiakStore.load
  rw [if_neg (by simp [hup]), hid, hlater, hf]
  simp [hdec]

/-- Witness of C3 on the in-memory collaborators: the values `user = alice` saved
under `ABC` and loaded into an empty record. -/
theorem save_load_round_trip_witness :
    0 ≤ (exWorld.heap.get exStore.Options).MaxAge ∧
    (exStore.save memGob ⟨"sid", "ABC", [("user", "alice")], exStore.Options, true⟩ exWorld).err
      = none ∧
    ((exStore.load memGob exDecoded
        (exStore.save memGob ⟨"sid", "ABC", [("user", "alice")], exStore.Options, true⟩
          exWorld).world).ok = true ∧
      (exStore.load memGob exDecoded
        (exStore.save memGob ⟨"sid", "ABC", [("user", "alice")], exStore.Options, true⟩
          exWorld).world).err = none ∧
      (exStore.load memGob exDecoded
        (exStore.save memGob ⟨"sid", "ABC", [("user", "alice")], exStore.Options, true⟩
          exWorld).world).session.Values = [("user", "alice")]) :=
  ⟨by decide, by decide,
   save_load_round_trip exStore memGob ⟨"sid", "ABC", [("user", "alice")], exStore.Options, true⟩
     exDecoded exWorld _ (by decide) memClient_ReadsBackWrites
     (by intro buf h; cases h; decide) rfl (by decide) rfl (by decide)⟩

/-! ## Deletion -/

/-- A successful `delete` has issued one `Delete`, in the store's bucket under
`session_<ID>`. -/
theorem delete_ok {σ : Type} (s : RiakStore σ) (session : Session)
    (world : World σ) (hdel : (s.delete session world).err = none) :
    s.Riaken.Session world.db = true ∧
      s.Riaken.Delete s.Bucket ("session_" ++ session.ID) world.db
        = (none, (s.delete session world).world.db) := by
  cases hup : s.Riaken.Session world.db with
  | false => simp [RiakStore.delete, hup] at hdel
  | true =>
    rcases hst : s.Riaken.Delete s.Bucket ("session_" ++ session.ID) world.db with ⟨err, db⟩
    simp only [RiakStore.delete, hup, hst] at hdel ⊢
    simp only [Bool.true_eq_false, if_false] at hdel ⊢
    subst hdel
    exact ⟨trivial, rfl⟩

/-- C5: for every record with `MaxAge < 0` whose `Save` succeeds, the delete was issued
under `session_<ID>`, a later `load` on the same identifier returns `(false, nil)`
(given a backend whose delete removes and that hands out a handle for the load), and
the single cookie set on the response has an empty value and the record's negative
max-age. -/
theorem Save_deletes {σ : Type} (s : RiakStore σ) (g : Gob) (r : Request)
    (w : ResponseWriter) (session target : Session) (world later : World σ)
    (hage : (world.heap.get session.Options).MaxAge < 0)
    (hback : s.Riaken.DeleteRemoves)
    (hid : target.ID = session.ID)
    (hsave : (s.Save g r w session world).err = none)
    (hlater : later.db = (s.Save g r w session world).world.db)
    (hup : s.Riaken.Session later.db = true) :
    s.Riaken.Delete s.Bucket ("session_" ++ session.ID) world.db
        = (none, (s.Save g r w session world).world.db) ∧
      (s.load g target later).ok = false ∧ (s.load g target later).err = none ∧
      (s.Save g r w session world).w
        = w ++ [NewCookie session.name "" (world.heap.get session.Options)] ∧
      (NewCookie session.name "" (world.heap.get session.Options)).Value = "" ∧
      (NewCookie session.name "" (world.heap.get session.Options)).MaxAge
        = (world.heap.get session.Options).MaxAge ∧
      (NewCookie session.name "" (world.heap.get session.Options)).MaxAge < 0 := by
  have hS : s.Save g r w session world =
      { err := none,
        w := SetCookie w (NewCookie session.name "" (world.heap.get session.Options)),
        session := session, world := (s.delete session world).world } ∧
      (s.delete session world).err = none := by
    unfold RiakStore.Save at hsave ⊢
    simp only [hage, if_true] at hsave ⊢
    cases hd : (s.delete session world).err with
    | some e => simp [hd] at hsave
    | none => simp [delete_heap]
  obtain ⟨hS, hd⟩ := hS
  obtain ⟨-, hdel⟩ := delete_ok s session world hd
  rw [hS] at hlater ⊢
  obtain ⟨st3, hf⟩ := hback _ _ _ _ hdel
  refine ⟨hdel, ?_, ?_, rfl, rfl, rfl, hage⟩
  · unfold RiakStore.load
    rw [if_neg (by simp [hup]), hid, hlater, hf]
  · unfold RiakStore.load
    rw [if_neg (by simp [hup]), hid, hlater, hf]

/-- Witness of C5 on the in-memory collaborators: the record `ABC` with `MaxAge = -1`
and an entry in the database. -/
theorem Save_deletes_witness :
    (exWorldExpiring.heap.get exStore.Options).MaxAge < 0 ∧
    (exStore.Save memGob exRequest [] exDecoded exWorldExpiring).err = none ∧
    (exStore.load memGob exDecoded exWorldExpiring).ok = true ∧
    (exStore.load memGob exDecoded
      (exStore.Save memGob exRequest [] exDecoded exWorldExpiring).world).ok = false ∧
    (exStore.load memGob exDecoded
      (exStore.Save memGob exRequest [] exDecoded exWorldExpiring).world).err = none ∧
    (exStore.Save memGob exRequest [] exDecoded exWorldExpiring).w
      = [⟨"sid", "", "/", "", -1, false, false⟩] :=
  have h := Save_deletes exStore memGob exRequest [] exDecoded exDecoded exWorldExpiring
    (exStore.Save memGob exRequest [] exDecoded exWorldExpiring).world
    (by decide) memClient_DeleteRemoves rfl (by decide) rfl (by decide)
  ⟨by decide, by decide, by decide, h.2.1, h.2.2.1, h.2.2.2.1⟩

/-! ## The time to live -/

/-- The outcome of `save` depends neither on the record's `MaxAge` nor on the store's
`DefaultMaxAge`: with any other heap of options and any other default the error and
the database afterwards are the same. -/
theorem save_ignores_age {σ : Type} (s : RiakStore σ) (g : Gob) (session : Session)
    (world : World σ) (heap : Heap) (age : Int) :
    ({ s with DefaultMaxAge := age }.save g session { world with heap := heap }).err
        = (s.save g session world).err ∧
      ({ s with DefaultMaxAge := age }.save g session { world with heap := heap }).world.db
        = (s.save g session world).world.db := by
  unfold RiakStore.save
  cases g.Encode session.Values with
  | error e => exact ⟨rfl, rfl⟩
  | ok buf =>
    cases hup : s.Riaken.Session world.db <;> simp [hup]

/-- C7 does not hold of the code: two records that differ only in `MaxAge` (60 and
3600 seconds), saved into the same empty database, give the same backend write (bucket,
key and payload, no time to live) and the same database afterwards. -/
theorem save_write_has_no_ttl :
    (exHeapTwoAges.get 1).MaxAge = 60 ∧ (exHeapTwoAges.get 2).MaxAge = 3600 ∧
    (exStore.save memGob ⟨"sid", "ABC", [("k", "v")], 1, false⟩
        { exWorld with heap := exHeapTwoAges }).err = none ∧
    (exStore.save memGob ⟨"sid", "ABC", [("k", "v")], 2, false⟩
        { exWorld with heap := exHeapTwoAges }).err = none ∧
    (exStore.save memGob ⟨"sid", "ABC", [("k", "v")], 1, false⟩
        { exWorld with heap := exHeapTwoAges }).world.db
      = { up := true, objects := [(("sessions", "session_ABC"), [1, 107, 1, 118])] } ∧
    (exStore.save memGob ⟨"sid", "ABC", [("k", "v")], 2, false⟩
        { exWorld with heap := exHeapTwoAges }).world.db
      = { up := true, objects := [(("sessions", "session_ABC"), [1, 107, 1, 118])] } := by
  refine ⟨?_, ?_, ?_, ?_, ?_, ?_⟩ <;> decide

/-! ## The options of a new record -/

/-- The record `New` returns points to the store's own options object. -/
theorem New_Options {σ : Type} (s : RiakStore σ) (g : Gob) (r : Request) (name : String)
    (world : World σ) : (s.New g r name world).session.Options = s.Options := by
  unfold RiakStore.New NewSession
  cases r.Cookie name with
  | none => rfl
  | some value =>
    simp only
    cases s.Codecs.DecodeMulti name value with
    | error e => rfl
    | ok id =>
      simp only
      unfold RiakStore.load
      split
      · rfl
      · split <;> rfl

/-- C8 does not hold of the code: on a store built by `NewRiakStore`, the record `New`
returns has the defaults (path `/`, `MaxAge` 2592000) but shares the store's options
object; after the caller sets that record's `MaxAge` to -1, the store's own options
have `MaxAge = -1` and the next `New` yields a record with `MaxAge = -1`. -/
theorem New_shares_store_options :
    NewRiakStore memClient none "sessions" memCodecs emptyHeap = .ok (exStore, exHeap) ∧
    (exWorld.heap.get (exStore.New memGob noCookies "sid" exWorld).session.Options).Path = "/" ∧
    (exWorld.heap.get (exStore.New memGob noCookies "sid" exWorld).session.Options).MaxAge
      = 2592000 ∧
    (exStore.New memGob noCookies "sid" exWorld).session.Options = exStore.Options ∧
    (exWorld.heap.get exStore.Options).MaxAge = 2592000 ∧
    (((exStore.New memGob noCookies "sid" exWorld).session.setMaxAge (-1) exWorld).heap.get
      exStore.Options).MaxAge = -1 ∧
    (((exStore.New memGob noCookies "sid" exWorld).session.setMaxAge (-1) exWorld).heap.get
      (exStore.New memGob noCookies "sid"
        ((exStore.New memGob noCookies "sid" exWorld).session.setMaxAge (-1) exWorld)
      ).session.Options).MaxAge = -1 := by
  refine ⟨rfl, ?_, ?_, ?_, ?_, ?_, ?_⟩ <;> decide

/-! ## The identifier -/

/-- The record after `Save`: the record it was given, with a fresh identifier when
`MaxAge >= 0` and the identifier was empty. -/
theorem Save_session {σ : Type} (s : RiakStore σ) (g : Gob) (r : Request)
    (w : ResponseWriter) (session : Session) (world : World σ) :
    (s.Save g r w session world).session =
      if (world.heap.get session.Options).MaxAge < 0 then session
      else if session.ID = "" then
        { session with
          ID := TrimRight (EncodeToString (GenerateRandomKey 32 world.entropy).1) "=" }
      else session := by
  unfold RiakStore.Save
  by_cases hage : (world.heap.get session.Options).MaxAge < 0
  · simp only [hage, if_true]
    cases (s.delete session world).err <;> rfl
  · simp only [hage, if_false]
    by_cases hid : session.ID = ""
    · simp only [hid, if_true]
      split
      · rfl
      · split <;> rfl
    · simp only [hid, if_false]
      split
      · rfl
      · split <;> rfl

/-- With a non-empty identifier, `Save` gives the record back as it was. -/
theorem Save_session_of_ID {σ : Type} (s : RiakStore σ) (g : Gob) (r : Request)
    (w : ResponseWriter) (session : Session) (world : World σ) (hid : session.ID ≠ "") :
    (s.Save g r w session world).session = session := by
  rw [Save_session]
  simp [hid]

theorem SaveAll_ID {σ : Type} (s : RiakStore σ) (g : Gob)
    (steps : List (Request × ResponseWriter × Values × World σ)) :
    ∀ session : Session, session.ID ≠ "" → (SaveAll s g steps session).ID = session.ID := by
  induction steps with
  | nil => intro session _; rfl
  | cons step rest ih =>
    intro session hid
    obtain ⟨r, w, values, world⟩ := step
    have hid2 : ({ session with Values := values } : Session).ID ≠ "" := hid
    simp only [SaveAll]
    rw [Save_session_of_ID s g r w _ world hid2]
    exact ih _ hid2

/-- C9: for every record whose identifier is non-empty, `Save` (either branch,
succeeding or failing) leaves the identifier unchanged, and so does any sequence of
`Save` calls on the record; `load` leaves the identifier and the random source alone,
and `New` leaves the random source alone and gives a record with no identifier or
with the one decoded from the cookie. -/
theorem Save_keeps_ID {σ : Type} (s : RiakStore σ) (g : Gob) (r : Request)
    (w : ResponseWriter) (session : Session) (world : World σ)
    (steps : List (Request × ResponseWriter × Values × World σ)) (name : String)
    (hid : session.ID ≠ "") :
    (s.Save g r w session world).session.ID = session.ID ∧
      (SaveAll s g steps session).ID = session.ID ∧
      (s.load g session world).session.ID = session.ID ∧
      (s.load g session world).world.entropy = world.entropy ∧
      (s.New g r name world).world.entropy = world.entropy ∧
      ((s.New g r name world).session.ID = "" ∨
        ∃ value, r.Cookie name = some value ∧
          s.Codecs.DecodeMulti name value = .ok (s.New g r name world).session.ID) := by
  refine ⟨by rw [Save_session_of_ID s g r w session world hid], SaveAll_ID s g steps session hid,
    load_ID s g session world, load_entropy s g session world, ?_, ?_⟩
  · unfold RiakStore.New
    cases r.Cookie name with
    | none => rfl
    | some value =>
      simp only
      cases s.Codecs.DecodeMulti name value with
      | error e => rfl
      | ok id => exact load_entropy s g _ world
  · unfold RiakStore.New NewSession
    cases hc : r.Cookie name with
    | none => exact Or.inl rfl
    | some value =>
      simp only
      cases hd : s.Codecs.DecodeMulti name value with
      | error e => exact Or.inl rfl
      | ok id =>
        refine Or.inr ⟨value, rfl, ?_⟩
        simp only [hd]
        rw [load_ID]

/-- Witness of C9 on the in-memory collaborators: the record `ABC` saved three times,
the second time marked for deletion against a database without handle. -/
theorem Save_keeps_ID_witness :
    exDecoded.ID ≠ "" ∧
    (exStore.Save memGob exRequest [] exDecoded exWorld).session.ID = "ABC" ∧
    (SaveAll exStore memGob
      [(exRequest, [], [("k", "v")], exWorld), (noCookies, [], [], exWorldExpiring),
       (exRequest, [], [("k", "w")], exWorldDown)] exDecoded).ID = "ABC" :=
  have h := Save_keeps_ID exStore memGob exRequest [] exDecoded exWorld
    [(exRequest, [], [("k", "v")], exWorld), (noCookies, [], [], exWorldExpiring),
     (exRequest, [], [("k", "w")], exWorldDown)] "sid" (by decide)
  ⟨by decide, h.1, h.2.1⟩

/-! ## The generated identifier -/

theorem encChar_mem (i : Nat) : encChar i ∈ encodeStd := by
  unfold encChar
  have h : i &&& 31 < 32 := by
    have := Nat.and_le_right (n := i) (m := 31)
    omega
  generalize i &&& 31 = j at h
  interval_cases j <;> decide

theorem quantum_mem (b0 b1 b2 b3 b4 : Nat) : ∀ c ∈ quantum b0 b1 b2 b3 b4, c ∈ encodeStd := by
  intro c hc
  simp only [quantum, List.mem_cons, List.mem_singleton, List.not_mem_nil, or_false] at hc
  rcases hc with h | h | h | h | h | h | h | h <;> rw [h] <;> exact encChar_mem _

theorem quantum_length (b0 b1 b2 b3 b4 : Nat) : (quantum b0 b1 b2 b3 b4).length = 8 := rfl

/-- The encoding of `5 * n + 2` bytes: `8 * n + 4` characters of the alphabet, then
four padding characters. -/
theorem Encode_two_left (n : Nat) : ∀ key : Bytes, key.length = 5 * n + 2 →
    ∃ body, Encode key = body ++ List.replicate 4 StdPadding ∧ body.length = 8 * n + 4 ∧
      ∀ c ∈ body, c ∈ encodeStd := by
  induction n with
  | zero =>
    intro key hlen
    match key, hlen with
    | [b0, b1], _ =>
      refine ⟨(quantum b0 b1 0 0 0).take 4, rfl, rfl, ?_⟩
      intro c hc
      exact quantum_mem _ _ _ _ _ c (List.mem_of_mem_take hc)
  | succ n ih =>
    intro key hlen
    match key, hlen with
    | b0 :: b1 :: b2 :: b3 :: b4 :: rest, hlen =>
      have hrest : rest.length = 5 * n + 2 := by
        simp only [List.length_cons] at hlen
        omega
      obtain ⟨body, hbody, hblen, hmem⟩ := ih rest hrest
      refine ⟨quantum b0 b1 b2 b3 b4 ++ body, ?_, ?_, ?_⟩
      · rw [Encode, hbody, List.append_assoc]
      · rw [List.length_append, quantum_length, hblen]
        omega
      · intro c hc
        rcases List.mem_append.mp hc with h | h
        · exact quantum_mem _ _ _ _ _ c h
        · exact hmem c h

theorem rdropWhile_append_replicate {α : Type} (p : α → Bool) (a : α) (hp : p a = true)
    (l : List α) (k : Nat) : (l ++ List.replicate k a).rdropWhile p = l.rdropWhile p := by
  induction k with
  | zero => simp
  | succ k ih =>
    rw [List.replicate_succ', ← List.append_assoc, List.rdropWhile_concat_pos _ _ _ hp, ih]

/-- The identifier made of 32 random bytes: the 52 alphabet characters of their
base32 encoding. -/
theorem identifier_of_key (key : Bytes) (hlen : key.length = 32) :
    (TrimRight (EncodeToString key) "=").length = 52 ∧
      (∀ c ∈ (TrimRight (EncodeToString key) "=").data, c ∈ encodeStd) ∧
      StdPadding ∉ (TrimRight (EncodeToString key) "=").data ∧
      TrimRight (EncodeToString key) "=" ≠ "" := by
  obtain ⟨body, hbody, hblen, hmem⟩ := Encode_two_left 6 key (by omega)
  have hnotpad : ∀ c ∈ body, c ≠ StdPadding := by
    intro c hc heq
    have := hmem c hc
    rw [heq] at this
    revert this
    decide
  have htrim : TrimRight (EncodeToString key) "=" = String.mk body := by
    have hself : body.rdropWhile (fun c => decide (c ∈ "=".data)) = body := by
      rw [List.rdropWhile_eq_self_iff]
      intro hl hlast
      have hne := hnotpad _ (List.getLast_mem hl)
      simp only [decide_eq_true_eq] at hlast
      exact hne (by simpa [StdPadding] using hlast)
    show String.mk ((Encode key).rdropWhile (fun c => decide (c ∈ "=".data))) = String.mk body
    rw [hbody, rdropWhile_append_replicate _ StdPadding (by decide), hself]
  rw [htrim]
  refine ⟨?_, hmem, ?_, ?_⟩
  · show body.length = 52
    omega
  · intro hin
    exact hnotpad _ hin rfl
  · intro hempty
    have : body.length = 0 := by
      have := congrArg String.length hempty
      simpa using this
    omega

/-- The database after a `save` that got past the encoder and the handle: the state
the `Store` under `session_<ID>` leaves. -/
theorem save_db_of_encoded {σ : Type} (s : RiakStore σ) (g : Gob) (session : Session)
    (world : World σ) (buf : Bytes) (he : g.Encode session.Values = .ok buf)
    (hup : s.Riaken.Session world.db = true) :
    (s.save g session world).world.db
        = (s.Riaken.Store s.Bucket ("session_" ++ session.ID) buf world.db).2 ∧
      (s.save g session world).err
        = (s.Riaken.Store s.Bucket ("session_" ++ session.ID) buf world.db).1 := by
  simp [RiakStore.save, he, hup]

/-- The world after a `Save` with `MaxAge >= 0`: the world `save` leaves, run on the
record as `Save` returns it. -/
theorem Save_world_of_nonneg {σ : Type} (s : RiakStore σ) (g : Gob) (r : Request)
    (w : ResponseWriter) (session : Session) (world : World σ)
    (hage : ¬ (world.heap.get session.Options).MaxAge < 0) :
    (s.Save g r w session world).world =
      (s.save g (s.Save g r w session world).session
        { world with entropy := if session.ID = "" then (GenerateRandomKey 32 world.entropy).2
                                else world.entropy }).world := by
  rw [Save_session]
  unfold RiakStore.Save
  simp only [hage, if_false]
  by_cases hid : session.ID = ""
  · simp only [hid, if_true]
    split
    · rfl
    · split <;> rfl
  · simp only [hid, if_false]
    split
    · rfl
    · split <;> rfl

/-- C10: for every record with `MaxAge >= 0` and an empty identifier, when the random
source delivers 32 bytes, `Save` assigns as identifier their standard base32 encoding
with the trailing padding stripped: exactly 52 characters, each in the alphabet
`A-Z`/`2-7`, no `=`, not empty; and the write goes to the key `session_` followed by
that identifier. -/
theorem Save_generates_ID {σ : Type} (s : RiakStore σ) (g : Gob) (r : Request)
    (w : ResponseWriter) (session : Session) (world : World σ)
    (hage : 0 ≤ (world.heap.get session.Options).MaxAge)
    (hid : session.ID = "")
    (hent : 32 ≤ world.entropy.length) :
    (s.Save g r w session world).session.ID
        = TrimRight (EncodeToString (world.entropy.take 32)) "=" ∧
      (s.Save g r w session world).session.ID.length = 52 ∧
      (∀ c ∈ (s.Save g r w session world).session.ID.data, c ∈ encodeStd) ∧
      '=' ∉ (s.Save g r w session world).session.ID.data ∧
      (s.Save g r w session world).session.ID ≠ "" ∧
      (∀ buf, g.Encode session.Values = .ok buf → s.Riaken.Session world.db = true →
        (s.Save g r w session world).world.db
          = (s.Riaken.Store s.Bucket ("session_" ++ (s.Save g r w session world).session.ID)
              buf world.db).2) := by
  have hage2 : ¬ (world.heap.get session.Options).MaxAge < 0 := by omega
  have hkey : (GenerateRandomKey 32 world.entropy).1 = world.entropy.take 32 := by
    unfold GenerateRandomKey
    rw [if_neg (by omega)]
  have hS : (s.Save g r w session world).session
      = { session with ID := TrimRight (EncodeToString (world.entropy.take 32)) "=" } := by
    rw [Save_session, if_neg hage2, if_pos hid, hkey]
  have hlen : (world.entropy.take 32).length = 32 := by
    rw [List.length_take]
    omega
  obtain ⟨h52, hmem, hpad, hne⟩ := identifier_of_key (world.entropy.take 32) hlen
  refine ⟨by rw [hS], by rw [hS]; exact h52, by rw [hS]; exact hmem, by rw [hS]; exact hpad,
    by rw [hS]; exact hne, ?_⟩
  intro buf he hup
  rw [Save_world_of_nonneg s g r w session world hage2]
  have he2 : g.Encode (s.Save g r w session world).session.Values = .ok buf := by
    rw [hS]; exact he
  exact (save_db_of_encoded s g _
    { world with entropy := if session.ID = "" then (GenerateRandomKey 32 world.entropy).2
                            else world.entropy } buf he2 hup).1

/-- Witness of C10 on the in-memory collaborators: a new record with the values
`user = alice`, the random source delivering the bytes 0 to 31. -/
theorem Save_generates_ID_witness :
    0 ≤ (exWorld.heap.get exStore.Options).MaxAge ∧
    32 ≤ exWorld.entropy.length ∧
    (exStore.Save memGob noCookies [] ⟨"sid", "", [("user", "alice")], exStore.Options, true⟩
        exWorld).session.ID = "AAAQEAYEAUDAOCAJBIFQYDIOB4IBCEQTCQKRMFYYDENBWHA5DYPQ" ∧
    (exStore.Save memGob noCookies [] ⟨"sid", "", [("user", "alice")], exStore.Options, true⟩
        exWorld).session.ID.length = 52 ∧
    (exStore.Save memGob noCookies [] ⟨"sid", "", [("user", "alice")], exStore.Options, true⟩
        exWorld).world.db
      = { up := true,
          objects := [(("sessions", "session_AAAQEAYEAUDAOCAJBIFQYDIOB4IBCEQTCQKRMFYYDENBWHA5DYPQ"),
                       [4, 117, 115, 101, 114, 5, 97, 108, 105, 99, 101])] } :=
  have h := Save_generates_ID exStore memGob noCookies []
    ⟨"sid", "", [("user", "alice")], exStore.Options, true⟩ exWorld (by decide) rfl (by decide)
  ⟨by decide, by decide, h.1.trans (by decide), h.2.1, by decide⟩

end Riakstore
